import Mathlib

/-!
A shallow embedding of `src/anygroup.go` (package `anygroup`): a scanner that
walks a directory, parses each `.go` file, and prints a deduplicated report of
top-level declarations (functions, struct types, variable groups), one line per
unique rendered signature, prefixed by the file path.

The embedding models the syntax-tree fragment that `parseFile`'s
`ast.Inspect` callback distinguishes (function declarations with receiver,
parameters, results and body statements; generic declaration groups with their
token and specs) and the rendering functions `getFunctionSignature`,
`getStructDefinition`, `getVariableDefinition`, `removeTokenInfo`, the
per-file dedup closure `processIfNotProcessed`, `parseFile`, and the walk
loop of `run`.  Go's `fmt.Printf`/`fmt.Println` write to standard output;
each emitted line is tagged with its sink.  Two pieces of text reaching the
renderer are produced by Go runtime reflection, not by code in this
repository, and are modelled as pre-rendered strings: the `fmt.Sprint` text
of a variable's type expression (`ValueSpec.typeText`, present exactly when
an explicit type was written) and the `%#v` debug dump of the initializer
expression list (`ValueSpec.valuesText`, present exactly when the initializer
list is nonempty).
-/

namespace Anygroup

/-- The output sink of a printed line: `fmt.Printf` / `fmt.Println` write to
the process's standard output; `slog` diagnostics would go to standard
error. -/
inductive Sink where
  | stdout
  | stderr
deriving DecidableEq

/-- One printed line together with the sink it was written to. -/
structure Line where
  sink : Sink
  text : String
deriving DecidableEq

/-- A type expression, as far as the extractor distinguishes shapes: the
`switch` in `getFunctionSignature` only matches `*ast.Ident`; every other
expression shape is ignored there.  The `repr` of the `other` case keeps the
expression's textual form so that structurally different declarations stay
structurally different in the model. -/
inductive TyExpr where
  | ident (name : String)
  | other (repr : String)
deriving DecidableEq

/-- An `ast.Field`: a group of names sharing one type (parameter group,
result group, struct field group, receiver).  Embedded/anonymous fields have
an empty `names` list. -/
structure Field where
  names : List String
  ty : TyExpr
deriving DecidableEq

/-- The shape of a type spec's right-hand side: `parseFile` only matches
`*ast.StructType`; all other shapes fall through. -/
inductive TyShape where
  | structType (fields : List Field)
  | otherType (repr : String)
deriving DecidableEq

/-- An `ast.ValueSpec`: names declared together, the `fmt.Sprint` text of the
declared type when an explicit type was written (`vs.Type != nil`), and the
`%#v` dump of the initializer expression list when it is nonempty
(`len(vs.Values) > 0`). -/
structure ValueSpec where
  names : List String
  typeText : Option String
  valuesText : Option String
deriving DecidableEq

/-- An `ast.Spec` inside a `GenDecl`: a type spec, a value spec, or an
imported-package spec (which `parseFile` never matches). -/
inductive Spec where
  | typeSpec (name : String) (ty : TyShape)
  | valueSpec (vs : ValueSpec)
  | importSpec (path : String)
deriving DecidableEq

/-- The `token.Token` of a `GenDecl`, restricted to the kinds a `GenDecl`
carries: `parseFile` tests `node.Tok == token.TYPE` and
`node.Tok == token.VAR`; `CONST` and `IMPORT` match neither branch. -/
inductive Tok where
  | varTok
  | typeTok
  | constTok
  | importTok
deriving DecidableEq

/-- An `ast.GenDecl`: a declaration group with its keyword token. -/
structure GenDecl where
  tok : Tok
  specs : List Spec
deriving DecidableEq

/-- A statement in a function body, modelled by what `ast.Inspect` can find
in it that the callback matches: a `GenDecl` (a local `var`/`type`/`const`
declaration statement) or anything else. -/
inductive Stmt where
  | declStmt (gd : GenDecl)
  | otherStmt (repr : String)
deriving DecidableEq

/-- An `ast.FuncDecl`: optional receiver (`fn.Recv`), name, parameter list
(`fn.Type.Params.List`), optional result list (`fn.Type.Results`, `nil` when
the function declares no results), and the body's statements. -/
structure FuncDecl where
  recv : Option Field
  name : String
  params : List Field
  results : Option (List Field)
  body : List Stmt
deriving DecidableEq

/-- A top-level declaration of an `ast.File`. -/
inductive Decl where
  | funcDecl (fn : FuncDecl)
  | genDecl (gd : GenDecl)
deriving DecidableEq

/-- A parsed file is its list of top-level declarations, in source order. -/
abbrev File := List Decl

/-- `strings.HasSuffix`, over the character list of the string. -/
def goHasSuffix (s suffix : String) : Bool :=
  suffix.data.isSuffixOf s.data

/-- `strings.TrimSuffix`: removes one trailing occurrence of `suffix` when
present. -/
def goTrimSuffix (s suffix : String) : String :=
  if goHasSuffix s suffix then
    String.mk (s.data.take (s.data.length - suffix.data.length))
  else s

/-- `removeTokenInfo` from the source: `strings.TrimPrefix(strings.TrimSuffix(s, ">"), "%!s(")`
(one suffix occurrence of `>` removed first, then one leading occurrence of
the four characters `%!s(` removed, `strings.TrimPrefix` inlined). -/
def removeTokenInfo (s : String) : String :=
  let t := goTrimSuffix s ">"
  if "%!s(".data.isPrefixOf t.data then String.mk (t.data.drop 4) else t

/-- The parameter names collected by the first loop of
`getFunctionSignature`: all names of all parameter groups, in order. -/
def paramNames (params : List Field) : List String :=
  params.flatMap (·.names)

/-- The result names collected by the second loop of
`getFunctionSignature`: one entry per result group whose type is a plain
identifier; result groups of any other type shape contribute nothing, and a
`nil` result list contributes nothing. -/
def resultNames (results : Option (List Field)) : List String :=
  match results with
  | none => []
  | some rs =>
    rs.flatMap fun r =>
      match r.ty with
      | TyExpr.ident n => [n]
      | TyExpr.other _ => []

/-- `getFunctionSignature`: `fmt.Sprintf("%s(%s) %s", funcName, strings.Join(params, ", "), strings.Join(results, ", "))`. -/
def getFunctionSignature (fn : FuncDecl) : String :=
  fn.name ++ "(" ++ ", ".intercalate (paramNames fn.params) ++ ") "
    ++ ", ".intercalate (resultNames fn.results)

/-- `getStructDefinition`: collects the names of all named fields and renders
`fmt.Sprintf("type %s struct { %s }", structName, strings.Join(fields, ", "))`. -/
def getStructDefinition (structName : String) (fields : List Field) : String :=
  "type " ++ structName ++ " struct \x7b "
    ++ ", ".intercalate (fields.flatMap (·.names)) ++ " \x7d"

/-- `getVariableDefinition`: returns `""` for a spec with zero names,
otherwise `fmt.Sprintf("var %s %s %s", strings.Join(variables, ", "), typeStr, valueStr)`
where `typeStr` is `removeTokenInfo(fmt.Sprint(vs.Type))` when a type was
written (else empty) and `valueStr` is the `%#v` dump when initializers are
present (else empty). -/
def getVariableDefinition (vs : ValueSpec) : String :=
  if vs.names = [] then ""
  else
    let typeStr := match vs.typeText with
      | none => ""
      | some t => removeTokenInfo t
    let valueStr := match vs.valuesText with
      | none => ""
      | some v => v
    "var " ++ ", ".intercalate vs.names ++ " " ++ typeStr ++ " " ++ valueStr

/-- The signatures the `ast.Inspect` callback passes to
`processIfNotProcessed` for one `GenDecl` node: for `token.TYPE`, one
`struct …` string per type spec whose underlying type is a struct; for
`token.VAR`, one `var …` string per value spec; nothing for other tokens. -/
def inspectGenDecl (gd : GenDecl) : List String :=
  if gd.tok = Tok.typeTok then
    gd.specs.flatMap fun sp =>
      match sp with
      | Spec.typeSpec name (TyShape.structType fields) =>
        ["struct " ++ getStructDefinition name fields]
      | _ => []
  else if gd.tok = Tok.varTok then
    gd.specs.flatMap fun sp =>
      match sp with
      | Spec.valueSpec vs => ["var " ++ getVariableDefinition vs]
      | _ => []
  else []

/-- Signatures contributed by one body statement under `ast.Inspect`: the
callback matches any `*ast.GenDecl` it reaches, including those inside
function bodies. -/
def inspectStmt : Stmt → List String
  | Stmt.declStmt gd => inspectGenDecl gd
  | Stmt.otherStmt _ => []

/-- Signatures contributed by one top-level declaration, in `ast.Inspect`'s
pre-order: a function declaration first yields its own `function …` line,
then whatever the traversal finds inside its body. -/
def inspectDecl : Decl → List String
  | Decl.funcDecl fn =>
    ("function " ++ getFunctionSignature fn) :: fn.body.flatMap inspectStmt
  | Decl.genDecl gd => inspectGenDecl gd

/-- The full sequence of signature strings passed to
`processIfNotProcessed`, in traversal order. -/
def inspectFile (f : File) : List String :=
  f.flatMap inspectDecl

/-- The dedup-and-print loop: `processIfNotProcessed` prints
`fmt.Printf("%s: %s\n", filename, s)` and records `s` when `s` is not yet in
the `processed` map, and drops `s` otherwise.  `seen` is the state of the
`processed` map. -/
def processLoop (filename : String) (seen : List String) : List String → List Line
  | [] => []
  | s :: rest =>
    if s ∈ seen then processLoop filename seen rest
    else ⟨Sink.stdout, filename ++ ": " ++ s⟩ :: processLoop filename (s :: seen) rest

/-- `parseFile`: on a parse error, prints `fmt.Printf("%s: %v\n", filename, err)`
and returns; otherwise walks the tree and prints each first-seen signature.
The `processed` map is created fresh inside each call.  (The three collection
slices `functionSignatures`, `structDefinitions`, `variableDefinitions` in
the source are never appended to, so the three loops after the traversal emit
nothing.) -/
def parseFile (filename : String) (parsed : Except String File) : List Line :=
  match parsed with
  | Except.error msg => [⟨Sink.stdout, filename ++ ": " ++ msg⟩]
  | Except.ok file => processLoop filename [] (inspectFile file)

/-- One entry yielded by `filepath.Walk`: either a traversal error handed to
the callback, or a path with its directory flag and (for source files) the
result of parsing its content. -/
inductive WalkEntry where
  | errEntry (msg : String)
  | fileEntry (path : String) (isDir : Bool) (parsed : Except String File)

/-- The walk callback of `run`: a traversal error is printed with
`fmt.Println(err)` and the walk continues; a non-directory whose name ends in
`.go` is handed to `parseFile`; everything else is skipped. -/
def walkStep : WalkEntry → List Line
  | WalkEntry.errEntry msg => [⟨Sink.stdout, msg⟩]
  | WalkEntry.fileEntry path isDir parsed =>
    if isDir then []
    else if goHasSuffix path ".go" then parseFile path parsed
    else []

/-- `run`: processes every walk entry in order; no entry's outcome affects
the processing of later entries. -/
def run (entries : List WalkEntry) : List Line :=
  entries.flatMap walkStep

/-! ## Specification-side characterisation of the dedup loop -/

/-- Keep the first occurrence of each string not already in `seen`,
preserving order. -/
def firstOccAux (seen : List String) : List String → List String
  | [] => []
  | s :: rest =>
    if s ∈ seen then firstOccAux seen rest
    else s :: firstOccAux (s :: seen) rest

/-- The subsequence of first occurrences of the distinct strings of a list,
in first-seen order. -/
def firstOcc (l : List String) : List String :=
  firstOccAux [] l

theorem processLoop_eq_map (filename : String) (seen : List String) (sigs : List String) :
    processLoop filename seen sigs
      = (firstOccAux seen sigs).map (fun s => ⟨Sink.stdout, filename ++ ": " ++ s⟩) := by
  induction sigs generalizing seen with
  | nil => rfl
  | cons s rest ih =>
    simp only [processLoop, firstOccAux]
    by_cases h : s ∈ seen
    · simp [h, ih]
    · simp [h, ih]

theorem mem_firstOccAux {s : String} {seen sigs : List String}
    (hs : s ∈ sigs) (hseen : s ∉ seen) : s ∈ firstOccAux seen sigs := by
  induction sigs generalizing seen with
  | nil => cases hs
  | cons t rest ih =>
    simp only [firstOccAux]
    by_cases ht : t ∈ seen
    · simp only [if_pos ht]
      rcases List.mem_cons.mp hs with h | h
      · exact absurd (h ▸ ht) hseen
      · exact ih h hseen
    · simp only [if_neg ht, List.mem_cons]
      rcases List.mem_cons.mp hs with h | h
      · exact Or.inl h
      · by_cases hst : s = t
        · exact Or.inl hst
        · exact Or.inr (ih h (by simp [hseen, hst]))

theorem not_mem_seen_of_mem_firstOccAux {s : String} {seen sigs : List String}
    (h : s ∈ firstOccAux seen sigs) : s ∉ seen := by
  induction sigs generalizing seen with
  | nil => cases h
  | cons t rest ih =>
    simp only [firstOccAux] at h
    by_cases ht : t ∈ seen
    · exact ih (by simpa [if_pos ht] using h)
    · rcases List.mem_cons.mp (by simpa [if_neg ht] using h) with h' | h'
      · exact h' ▸ ht
      · exact fun hs => (ih h') (List.mem_cons_of_mem t hs)

theorem nodup_firstOccAux (seen sigs : List String) : (firstOccAux seen sigs).Nodup := by
  induction sigs generalizing seen with
  | nil => exact List.nodup_nil
  | cons t rest ih =>
    simp only [firstOccAux]
    by_cases ht : t ∈ seen
    · simpa [if_pos ht] using ih seen
    · simp only [if_neg ht, List.nodup_cons]
      refine ⟨fun hmem => ?_, ih (t :: seen)⟩
      exact (not_mem_seen_of_mem_firstOccAux hmem) (List.mem_cons_self t seen)

theorem firstOccAux_sublist (seen sigs : List String) :
    (firstOccAux seen sigs).Sublist sigs := by
  induction sigs generalizing seen with
  | nil => exact List.Sublist.refl []
  | cons t rest ih =>
    simp only [firstOccAux]
    by_cases ht : t ∈ seen
    · simpa [if_pos ht] using List.Sublist.cons t (ih seen)
    · simpa [if_neg ht] using List.Sublist.cons₂ t (ih (t :: seen))

theorem firstOccAux_of_nodup {sigs : List String} (hnd : sigs.Nodup) :
    ∀ seen : List String, (∀ s ∈ sigs, s ∉ seen) → firstOccAux seen sigs = sigs := by
  induction sigs with
  | nil => intro seen _; rfl
  | cons t rest ih =>
    intro seen hdisj
    have ht : t ∉ seen := hdisj t (List.mem_cons_self t rest)
    simp only [firstOccAux, if_neg ht]
    have hnd' := (List.nodup_cons.mp hnd).2
    have htrest := (List.nodup_cons.mp hnd).1
    congr 1
    exact ih hnd' (t :: seen) (fun s hs => by
      simp only [List.mem_cons]
      push_neg
      exact ⟨fun h => htrest (h ▸ hs), hdisj s (List.mem_cons_of_mem t hs)⟩)

theorem line_of_sig_injective (filename : String) :
    Function.Injective (fun s => Line.mk Sink.stdout (filename ++ ": " ++ s)) := by
  intro a b h
  have hdata := congrArg (fun l => Line.text l |>.data) h
  simp only [String.data_append, List.append_assoc, List.cons_append,
    List.nil_append] at hdata
  exact String.ext (by simpa using List.append_cancel_left hdata)

/-! ## Claims -/

/-- C1: deduplication is scoped per file.  For every file, the output of
`parseFile` is exactly one `FILEPATH: SIGNATURE` line per distinct rendered
signature, at its first occurrence, in order (part 1); each signature that
occurs in the traversal yields exactly one output line, so later identical
occurrences yield none (part 2); and since the `processed` set is created
fresh inside each `parseFile` call, a signature occurring in two distinct
files is printed exactly once under each file's path (part 3). -/
theorem c1_dedup_scoped_per_file :
    (∀ (filename : String) (tree : File),
        parseFile filename (Except.ok tree)
          = (firstOcc (inspectFile tree)).map
              (fun s => Line.mk Sink.stdout (filename ++ ": " ++ s)))
    ∧ (∀ (filename : String) (tree : File) (s : String), s ∈ inspectFile tree →
        (parseFile filename (Except.ok tree)).count
          (Line.mk Sink.stdout (filename ++ ": " ++ s)) = 1)
    ∧ (∀ (f1 f2 : String) (t1 t2 : File) (s : String),
        s ∈ inspectFile t1 → s ∈ inspectFile t2 →
        (parseFile f1 (Except.ok t1)).count (Line.mk Sink.stdout (f1 ++ ": " ++ s)) = 1
        ∧ (parseFile f2 (Except.ok t2)).count (Line.mk Sink.stdout (f2 ++ ": " ++ s)) = 1) := by
  have hpart1 : ∀ (filename : String) (tree : File),
      parseFile filename (Except.ok tree)
        = (firstOcc (inspectFile tree)).map
            (fun s => Line.mk Sink.stdout (filename ++ ": " ++ s)) :=
    fun filename tree => processLoop_eq_map filename [] (inspectFile tree)
  have hpart2 : ∀ (filename : String) (tree : File) (s : String), s ∈ inspectFile tree →
      (parseFile filename (Except.ok tree)).count
        (Line.mk Sink.stdout (filename ++ ": " ++ s)) = 1 := by
    intro filename tree s hs
    rw [hpart1]
    rw [List.count_map_of_injective _ _ (line_of_sig_injective filename)]
    exact List.count_eq_one_of_mem (nodup_firstOccAux [] _)
      (mem_firstOccAux hs (List.not_mem_nil s))
  exact ⟨hpart1, hpart2,
    fun f1 f2 t1 t2 s h1 h2 => ⟨hpart2 f1 t1 s h1, hpart2 f2 t2 s h2⟩⟩

/-- Witness for C1: a file declaring `Add` twice emits its line exactly once,
and a second file with the same signature emits it once under its own path. -/
theorem c1_dedup_scoped_per_file_witness :
    (parseFile "a.go" (Except.ok
        [Decl.funcDecl ⟨none, "Add", [⟨["a", "b"], TyExpr.ident "int"⟩],
          some [⟨[], TyExpr.ident "int"⟩], []⟩,
         Decl.funcDecl ⟨none, "Add", [⟨["a", "b"], TyExpr.ident "int"⟩],
          some [⟨[], TyExpr.ident "int"⟩], []⟩])).count
      (Line.mk Sink.stdout ("a.go" ++ ": " ++ "function Add(a, b) int")) = 1
    ∧ (parseFile "b.go" (Except.ok
        [Decl.funcDecl ⟨none, "Add", [⟨["a", "b"], TyExpr.ident "int"⟩],
          some [⟨[], TyExpr.ident "int"⟩], []⟩])).count
      (Line.mk Sink.stdout ("b.go" ++ ": " ++ "function Add(a, b) int")) = 1 :=
  ⟨c1_dedup_scoped_per_file.2.1 "a.go" _ "function Add(a, b) int" (by decide),
   c1_dedup_scoped_per_file.2.1 "b.go" _ "function Add(a, b) int" (by decide)⟩

/-- C2 counterexample: a file defining `struct Point { X, Y }` produces the
line `FILE: struct type Point struct { X, Y }` — the signature embeds the
full `type NAME struct { … }` text after the kind word `struct` — and not the
claimed `FILE: struct Point { X, Y }`. -/
theorem c2_struct_line_counterexample :
    parseFile "FILE" (Except.ok [Decl.genDecl ⟨Tok.typeTok,
        [Spec.typeSpec "Point" (TyShape.structType [⟨["X", "Y"], TyExpr.other "int"⟩])]⟩])
      = [⟨Sink.stdout, "FILE: struct type Point struct { X, Y }"⟩]
    ∧ parseFile "FILE" (Except.ok [Decl.genDecl ⟨Tok.typeTok,
        [Spec.typeSpec "Point" (TyShape.structType [⟨["X", "Y"], TyExpr.other "int"⟩])]⟩])
      ≠ [⟨Sink.stdout, "FILE: struct Point { X, Y }"⟩] := by decide

/-- C2 amended: for every record declaration with name `N` and fields, the
emitted line is `FILEPATH: struct type N struct { F1, F2, ... }` — the kind
word `struct`, then the rendered `type N struct { … }` definition with the
field names comma-and-space joined. -/
theorem c2_struct_line_amended (fname n : String) (fields : List Field) :
    parseFile fname (Except.ok
        [Decl.genDecl ⟨Tok.typeTok, [Spec.typeSpec n (TyShape.structType fields)]⟩])
      = [⟨Sink.stdout, fname ++ ": " ++ ("struct " ++ ("type " ++ n ++ " struct \x7b "
          ++ ", ".intercalate (fields.flatMap (·.names)) ++ " \x7d"))⟩] := rfl

/-- C3 counterexample: the group `var x int` is emitted as
`f.go: var var x int ` — the keyword `var` appears twice (once from the
`fmt.Sprintf("var %s", …)` in `parseFile`, once inside
`getVariableDefinition`), not once as the claim states. -/
theorem c3_var_line_counterexample :
    parseFile "f.go" (Except.ok
        [Decl.genDecl ⟨Tok.varTok, [Spec.valueSpec ⟨["x"], some "int", none⟩]⟩])
      = [⟨Sink.stdout, "f.go: var var x int "⟩]
    ∧ parseFile "f.go" (Except.ok
        [Decl.genDecl ⟨Tok.varTok, [Spec.valueSpec ⟨["x"], some "int", none⟩]⟩])
      ≠ [⟨Sink.stdout, "f.go: var x int "⟩]
    ∧ parseFile "f.go" (Except.ok
        [Decl.genDecl ⟨Tok.varTok, [Spec.valueSpec ⟨["x"], some "int", none⟩]⟩])
      ≠ [⟨Sink.stdout, "f.go: var x int"⟩] := by decide

/-- C3 amended: for every variable declaration group with at least one name,
the emitted signature is `var var N1, N2 TYPETEXT VALUETEXT` — the keyword
`var` appears twice — with the names comma-and-space joined, `TYPETEXT`
empty when no explicit type was written and `VALUETEXT` empty when there is
no initializer. -/
theorem c3_var_line_amended (fname n0 : String) (ns : List String) (t v : Option String) :
    parseFile fname (Except.ok
        [Decl.genDecl ⟨Tok.varTok, [Spec.valueSpec ⟨n0 :: ns, t, v⟩]⟩])
      = [⟨Sink.stdout, fname ++ ": " ++ ("var " ++ ("var " ++ ", ".intercalate (n0 :: ns) ++ " "
          ++ (match t with | none => "" | some tt => removeTokenInfo tt) ++ " "
          ++ (match v with | none => "" | some vv => vv)))⟩] := rfl

/-- C4: the code contradicts its own comment.  `getVariableDefinition`
returns the empty string for a spec with zero names — the comment on that
branch says nothing should be printed for it — but the caller in `parseFile`
has already wrapped the result in `fmt.Sprintf("var %s", …)`, so a zero-name
variable group still emits the prefix-only line `FILEPATH: var `. -/
theorem c4_zero_names_emits_line :
    parseFile "f.go" (Except.ok
        [Decl.genDecl ⟨Tok.varTok, [Spec.valueSpec ⟨[], none, none⟩]⟩])
      = [⟨Sink.stdout, "f.go: var "⟩]
    ∧ getVariableDefinition ⟨[], none, none⟩ = "" := by decide

/-- C5 counterexample: `ast.Inspect` descends into function bodies, so a
local `var` group and a local struct type declaration inside a body DO
produce report lines; the file does not produce only the function's own
line as the claim would require. -/
theorem c5_local_decls_counterexample :
    parseFile "f.go" (Except.ok [Decl.funcDecl ⟨none, "f", [], none,
        [Stmt.declStmt ⟨Tok.varTok, [Spec.valueSpec ⟨["x"], some "int", none⟩]⟩,
         Stmt.declStmt ⟨Tok.typeTok,
          [Spec.typeSpec "point" (TyShape.structType [⟨["y"], TyExpr.ident "int"⟩])]⟩]⟩])
      = [⟨Sink.stdout, "f.go: function f() "⟩,
         ⟨Sink.stdout, "f.go: var var x int "⟩,
         ⟨Sink.stdout, "f.go: struct type point struct { y }"⟩]
    ∧ parseFile "f.go" (Except.ok [Decl.funcDecl ⟨none, "f", [], none,
        [Stmt.declStmt ⟨Tok.varTok, [Spec.valueSpec ⟨["x"], some "int", none⟩]⟩,
         Stmt.declStmt ⟨Tok.typeTok,
          [Spec.typeSpec "point" (TyShape.structType [⟨["y"], TyExpr.ident "int"⟩])]⟩]⟩])
      ≠ [⟨Sink.stdout, "f.go: function f() "⟩] := by decide

/-- C5 amended: constants and imports contribute no report lines (part 1),
but local declarations nested inside function bodies are NOT excluded: the
traversal visits them, so a local `var` group and a local struct type
declaration each produce a report line (part 2). -/
theorem c5_local_decls_amended :
    (∀ (fname : String) (gs : List GenDecl),
        (∀ g ∈ gs, g.tok = Tok.constTok ∨ g.tok = Tok.importTok) →
        parseFile fname (Except.ok (gs.map Decl.genDecl)) = [])
    ∧ (∀ fname : String,
        parseFile fname (Except.ok [Decl.funcDecl ⟨none, "f", [], none,
            [Stmt.declStmt ⟨Tok.varTok, [Spec.valueSpec ⟨["x"], some "int", none⟩]⟩,
             Stmt.declStmt ⟨Tok.typeTok,
              [Spec.typeSpec "point" (TyShape.structType [⟨["y"], TyExpr.ident "int"⟩])]⟩]⟩])
          = [⟨Sink.stdout, fname ++ ": " ++ "function f() "⟩,
             ⟨Sink.stdout, fname ++ ": " ++ "var var x int "⟩,
             ⟨Sink.stdout, fname ++ ": " ++ "struct type point struct { y }"⟩]) := by
  constructor
  · intro fname gs h
    have hins : inspectFile (gs.map Decl.genDecl) = [] := by
      induction gs with
      | nil => rfl
      | cons g rest ih =>
        have hg := h g (List.mem_cons_self g rest)
        have hrest := ih (fun g' hg' => h g' (List.mem_cons_of_mem g hg'))
        have hzero : inspectGenDecl g = [] := by
          rcases hg with h1 | h1 <;> simp [inspectGenDecl, h1]
        simp only [inspectFile, List.map_cons, List.flatMap_cons] at hrest ⊢
        simp [inspectDecl, hzero, hrest]
    show processLoop fname [] (inspectFile (gs.map Decl.genDecl)) = []
    rw [hins]
    rfl
  · intro fname
    rfl

/-- Witness for C5: a file made of one `const` group and one `import` group
produces no report lines. -/
theorem c5_local_decls_amended_witness :
    parseFile "c.go" (Except.ok
        ([GenDecl.mk Tok.constTok [Spec.valueSpec ⟨["k"], none, some "1"⟩],
          GenDecl.mk Tok.importTok [Spec.importSpec "fmt"]].map Decl.genDecl)) = [] :=
  c5_local_decls_amended.1 "c.go" _ (by decide)

/-- C6 counterexample: a function with the two results `int` and `error`
renders as `function f() int, error` — the result type names are
comma-and-space joined, not space joined as the claim states. -/
theorem c6_results_counterexample :
    parseFile "f.go" (Except.ok [Decl.funcDecl ⟨none, "f", [],
        some [⟨[], TyExpr.ident "int"⟩, ⟨[], TyExpr.ident "error"⟩], []⟩])
      = [⟨Sink.stdout, "f.go: function f() int, error"⟩]
    ∧ parseFile "f.go" (Except.ok [Decl.funcDecl ⟨none, "f", [],
        some [⟨[], TyExpr.ident "int"⟩, ⟨[], TyExpr.ident "error"⟩], []⟩])
      ≠ [⟨Sink.stdout, "f.go: function f() int error"⟩] := by decide

/-- C6 amended: for every function declaration the emitted signature is
`function NAME(PARAM1, PARAM2, ...) RESULT1, RESULT2, ...`: parameter names
AND result type names are both comma-and-space joined; an empty parameter or
result list renders as the empty string. -/
theorem c6_function_line_amended (fname : String) (recv : Option Field) (name : String)
    (params : List Field) (results : Option (List Field)) :
    parseFile fname (Except.ok [Decl.funcDecl ⟨recv, name, params, results, []⟩])
      = [⟨Sink.stdout, fname ++ ": " ++ ("function " ++ (name ++ "("
          ++ ", ".intercalate (paramNames params) ++ ") "
          ++ ", ".intercalate (resultNames results)))⟩] := rfl

/-- C7 counterexample: the diagnostic for an unparsable file is written with
`fmt.Printf` to standard output — the same sink as the report lines — not to
a separate error channel: in a run over one invalid and one valid file every
emitted line is on stdout and no line is on stderr. -/
theorem c7_error_channel_counterexample :
    run [WalkEntry.fileEntry "bad.go" false (Except.error "expected declaration, found wrong"),
         WalkEntry.fileEntry "good.go" false (Except.ok [Decl.funcDecl ⟨none, "Add",
            [⟨["a", "b"], TyExpr.ident "int"⟩], some [⟨[], TyExpr.ident "int"⟩], []⟩])]
      = [⟨Sink.stdout, "bad.go: expected declaration, found wrong"⟩,
         ⟨Sink.stdout, "good.go: function Add(a, b) int"⟩]
    ∧ List.filter (fun l => l.sink == Sink.stderr)
        (run [WalkEntry.fileEntry "bad.go" false (Except.error "expected declaration, found wrong"),
              WalkEntry.fileEntry "good.go" false (Except.ok [Decl.funcDecl ⟨none, "Add",
                [⟨["a", "b"], TyExpr.ident "int"⟩], some [⟨[], TyExpr.ident "int"⟩], []⟩])])
      = [] := by decide

/-- C7 amended: when parsing a file fails, that file contributes zero report
lines and exactly one diagnostic line `FILEPATH: ERROR`, written to standard
output (the same stream as the report), and processing continues unchanged
with the remaining files (part 1); every report line of a valid file in the
run still appears in the output (part 2). -/
theorem c7_parse_failure_amended :
    (∀ (fname msg : String) (rest : List WalkEntry),
        goHasSuffix fname ".go" = true →
        run (WalkEntry.fileEntry fname false (Except.error msg) :: rest)
          = Line.mk Sink.stdout (fname ++ ": " ++ msg) :: run rest)
    ∧ (∀ (entries : List WalkEntry) (fname : String) (tree : File) (l : Line),
        WalkEntry.fileEntry fname false (Except.ok tree) ∈ entries →
        goHasSuffix fname ".go" = true →
        l ∈ parseFile fname (Except.ok tree) → l ∈ run entries) := by
  constructor
  · intro fname msg rest h
    simp [run, List.flatMap_cons, walkStep, h, parseFile]
  · intro entries fname tree l hmem hsuf hl
    simp only [run, List.mem_flatMap]
    exact ⟨_, hmem, by simpa [walkStep, hsuf] using hl⟩

/-- Witness for C7: a failing file alone yields exactly its stdout
diagnostic, and a valid file's line is in the run's output. -/
theorem c7_parse_failure_amended_witness :
    run [WalkEntry.fileEntry "bad.go" false (Except.error "oops")]
      = [Line.mk Sink.stdout ("bad.go" ++ ": " ++ "oops")]
    ∧ Line.mk Sink.stdout "good.go: function f() "
        ∈ run [WalkEntry.fileEntry "good.go" false
            (Except.ok [Decl.funcDecl ⟨none, "f", [], none, []⟩])] :=
  ⟨c7_parse_failure_amended.1 "bad.go" "oops" [] (by decide),
   c7_parse_failure_amended.2 _ "good.go" [Decl.funcDecl ⟨none, "f", [], none, []⟩] _
     (List.mem_cons_self _ _) (by decide) (by decide)⟩

/-- C8: within a single file the report lines preserve first-seen order.
When the traversal's signature sequence has no duplicates, the output is
exactly that sequence, line for line, in the depth-first order in which the
declarations were encountered — functions interleaved with type/var groups,
not segregated by kind (part 1); in general, the output is an
order-preserving subsequence of the traversal's line sequence (part 2). -/
theorem c8_order_preservation :
    (∀ (filename : String) (tree : File),
        (inspectFile tree).Nodup →
        parseFile filename (Except.ok tree)
          = (inspectFile tree).map (fun s => Line.mk Sink.stdout (filename ++ ": " ++ s)))
    ∧ (∀ (filename : String) (tree : File),
        (parseFile filename (Except.ok tree)).Sublist
          ((inspectFile tree).map (fun s => Line.mk Sink.stdout (filename ++ ": " ++ s)))) := by
  constructor
  · intro filename tree hnd
    show processLoop filename [] (inspectFile tree) = _
    rw [processLoop_eq_map]
    rw [firstOccAux_of_nodup hnd [] (fun s _ => List.not_mem_nil s)]
  · intro filename tree
    show (processLoop filename [] (inspectFile tree)).Sublist _
    rw [processLoop_eq_map]
    exact List.Sublist.map _ (firstOccAux_sublist [] (inspectFile tree))

/-- Witness for C8: a file with a function, then a struct type, then a var
group — all signatures distinct — reports them in exactly that order. -/
theorem c8_order_preservation_witness :
    parseFile "m.go" (Except.ok
        [Decl.funcDecl ⟨none, "Add", [⟨["a", "b"], TyExpr.ident "int"⟩],
          some [⟨[], TyExpr.ident "int"⟩], []⟩,
         Decl.genDecl ⟨Tok.typeTok,
          [Spec.typeSpec "Point" (TyShape.structType [⟨["X", "Y"], TyExpr.other "int"⟩])]⟩,
         Decl.genDecl ⟨Tok.varTok, [Spec.valueSpec ⟨["x"], some "int", none⟩]⟩])
      = [⟨Sink.stdout, "m.go: function Add(a, b) int"⟩,
         ⟨Sink.stdout, "m.go: struct type Point struct { X, Y }"⟩,
         ⟨Sink.stdout, "m.go: var var x int "⟩] :=
  (c8_order_preservation.1 "m.go" _ (by decide)).trans (by decide)

/-- C9 counterexample: two structurally different function declarations —
`f(a int) int` and `f(a string) int`, which are not duplicate textual forms
of one declaration — render the identical signature `f(a) int` (parameter
types are never rendered) and are conflated by deduplication into a single
report line. -/
theorem c9_collision_counterexample :
    Decl.funcDecl ⟨none, "f", [⟨["a"], TyExpr.ident "int"⟩],
        some [⟨[], TyExpr.ident "int"⟩], []⟩
      ≠ Decl.funcDecl ⟨none, "f", [⟨["a"], TyExpr.ident "string"⟩],
        some [⟨[], TyExpr.ident "int"⟩], []⟩
    ∧ getFunctionSignature ⟨none, "f", [⟨["a"], TyExpr.ident "int"⟩],
        some [⟨[], TyExpr.ident "int"⟩], []⟩
      = getFunctionSignature ⟨none, "f", [⟨["a"], TyExpr.ident "string"⟩],
        some [⟨[], TyExpr.ident "int"⟩], []⟩
    ∧ parseFile "f.go" (Except.ok
        [Decl.funcDecl ⟨none, "f", [⟨["a"], TyExpr.ident "int"⟩],
          some [⟨[], TyExpr.ident "int"⟩], []⟩,
         Decl.funcDecl ⟨none, "f", [⟨["a"], TyExpr.ident "string"⟩],
          some [⟨[], TyExpr.ident "int"⟩], []⟩])
      = [⟨Sink.stdout, "f.go: function f(a) int"⟩] := by decide

/-- C9 amended: rendered signatures are NOT injective on structurally
different declarations: a function's signature depends only on its name, its
parameter names and its identifier result names — never on parameter types,
receiver or bodies — so two structurally different declarations agreeing on
those render the identical string (part 1) and are conflated by dedup into
one line (part 2). -/
theorem c9_collision_amended :
    (∀ fn1 fn2 : FuncDecl,
        fn1.name = fn2.name → paramNames fn1.params = paramNames fn2.params →
        resultNames fn1.results = resultNames fn2.results →
        getFunctionSignature fn1 = getFunctionSignature fn2)
    ∧ (∀ (fname : String) (fn1 fn2 : FuncDecl),
        getFunctionSignature fn1 = getFunctionSignature fn2 →
        fn1.body = [] → fn2.body = [] →
        parseFile fname (Except.ok [Decl.funcDecl fn1, Decl.funcDecl fn2])
          = [Line.mk Sink.stdout (fname ++ ": " ++ ("function " ++ getFunctionSignature fn1))]) := by
  constructor
  · intro fn1 fn2 h1 h2 h3
    simp [getFunctionSignature, h1, h2, h3]
  · intro fname fn1 fn2 hsig hb1 hb2
    show processLoop fname [] (inspectFile [Decl.funcDecl fn1, Decl.funcDecl fn2]) = _
    simp [inspectFile, inspectDecl, hb1, hb2, hsig, processLoop]

/-- Witness for C9: the two colliding declarations of the counterexample,
processed through `parseFile`, yield the single conflated line. -/
theorem c9_collision_amended_witness :
    parseFile "x.go" (Except.ok
        [Decl.funcDecl ⟨none, "f", [⟨["a"], TyExpr.ident "int"⟩],
          some [⟨[], TyExpr.ident "int"⟩], []⟩,
         Decl.funcDecl ⟨none, "f", [⟨["a"], TyExpr.ident "string"⟩],
          some [⟨[], TyExpr.ident "int"⟩], []⟩])
      = [Line.mk Sink.stdout ("x.go" ++ ": " ++ ("function " ++ getFunctionSignature
          ⟨none, "f", [⟨["a"], TyExpr.ident "int"⟩], some [⟨[], TyExpr.ident "int"⟩], []⟩))] :=
  c9_collision_amended.2 "x.go" _ _ (by decide) rfl rfl

/-- C10: the rendered signature of a method never involves its receiver.
`getFunctionSignature` reads only `fn.Type.Params`, not `fn.Recv`: the
signature equals a formula over the function's own name, parameter names and
identifier result names (part 1), so two methods agreeing on those but
carrying different receivers render byte-identical signatures (part 2). -/
theorem c10_receiver_ignored :
    (∀ (recv : Option Field) (name : String) (params : List Field)
        (results : Option (List Field)) (body : List Stmt),
        getFunctionSignature ⟨recv, name, params, results, body⟩
          = name ++ "(" ++ ", ".intercalate (paramNames params) ++ ") "
            ++ ", ".intercalate (resultNames results))
    ∧ (∀ (r1 r2 : Option Field) (name : String) (ps1 ps2 : List Field)
        (rs1 rs2 : Option (List Field)) (b1 b2 : List Stmt),
        paramNames ps1 = paramNames ps2 → resultNames rs1 = resultNames rs2 →
        getFunctionSignature ⟨r1, name, ps1, rs1, b1⟩
          = getFunctionSignature ⟨r2, name, ps2, rs2, b2⟩) := by
  constructor
  · intro recv name params results body
    rfl
  · intro r1 r2 name ps1 ps2 rs1 rs2 b1 b2 h1 h2
    simp [getFunctionSignature, h1, h2]

/-- Witness for C10: `Close` on receiver `*Server` and `Close` on receiver
`*Client`, with the same parameter names and result type names, render the
identical signature. -/
theorem c10_receiver_ignored_witness :
    getFunctionSignature ⟨some ⟨["s"], TyExpr.other "*Server"⟩, "Close",
        [⟨["x"], TyExpr.ident "int"⟩], some [⟨[], TyExpr.ident "error"⟩], []⟩
      = getFunctionSignature ⟨some ⟨["c"], TyExpr.other "*Client"⟩, "Close",
        [⟨["x"], TyExpr.ident "bool"⟩], some [⟨[], TyExpr.ident "error"⟩], []⟩ :=
  c10_receiver_ignored.2 _ _ "Close" _ _ _ _ _ _ (by decide) (by decide)

end Anygroup
